import Mathlib

/-!
Verification of the section-extraction and rendering layer of the legal
document analysis web utility, together with a model of its analyze HTTP
endpoint.  JavaScript strings are embedded as lists of characters; the
client functions extractSection and formatText and the relevant parts of
the server route are translated below, and the theorems settle the
specified properties against those translations.
-/

namespace LegalDoc

/-- Characters removed by the JavaScript String.prototype.trim method:
the ASCII whitespace characters together with the no-break space and the
byte-order mark (the remaining exotic Unicode space characters never occur
in the texts considered here). -/
def isJsWs (c : Char) : Bool :=
  c = ' ' || c = '\t' || c = '\n' || c = '\r' || c = '\u000B' || c = '\u000C' ||
    c = '\u00A0' || c = '\uFEFF'

/-- Remove leading JavaScript whitespace. -/
def trimLeft (s : List Char) : List Char := s.dropWhile isJsWs

/-- Remove trailing JavaScript whitespace. -/
def trimRight (s : List Char) : List Char := (s.reverse.dropWhile isJsWs).reverse

/-- The JavaScript trim method: remove leading and trailing whitespace. -/
def trimChars (s : List Char) : List Char := trimLeft (trimRight s)

/-- Scan of text.indexOf: try each suffix in turn, returning the offset of
the first suffix that the pattern is a prefix of. -/
def findAux (pat : List Char) : List Char → Nat → Option Nat
  | [], i => if pat.isPrefixOf [] then some i else none
  | c :: rest, i =>
      if pat.isPrefixOf (c :: rest) then some i else findAux pat rest (i + 1)

/-- JavaScript text.indexOf(pat, start): the index of the first occurrence
of pat at or after start (clamped to the length of the text), or none. -/
def jsIndexOf (text pat : List Char) (start : Nat) : Option Nat :=
  (findAux pat (text.drop (min start text.length)) 0).map (· + min start text.length)

/-- Scan recording the offset of the last suffix that the pattern is a
prefix of. -/
def findLastAux (pat : List Char) : List Char → Nat → Option Nat → Option Nat
  | [], i, best => if pat.isPrefixOf [] then some i else best
  | c :: rest, i, best =>
      findLastAux pat rest (i + 1) (if pat.isPrefixOf (c :: rest) then some i else best)

/-- The index of the last occurrence of pat in the text, or none. -/
def lastOcc (text pat : List Char) : Option Nat := findLastAux pat text 0 none

/-- JavaScript text.substring(a, b): clamp both arguments to the length of
the text, swap them if needed, and return the characters in between. -/
def jsSubstring (text : List Char) (a b : Nat) : List Char :=
  ((text.drop (min (min a text.length) (min b text.length))).take
    (max (min a text.length) (min b text.length) - min (min a text.length) (min b text.length)))

/-- The fallback literal used by extractSection and formatText. -/
def sentinel : List Char := "No information found.".data

/-- Section marker KEY IMPORTANT POINTS. -/
def keyMarker : List Char := "KEY IMPORTANT POINTS".data

/-- Section marker SUSPICIOUS ELEMENTS. -/
def suspMarker : List Char := "SUSPICIOUS ELEMENTS".data

/-- Section marker RISK ASSESSMENT. -/
def riskMarker : List Char := "RISK ASSESSMENT".data

/-- Section marker RECOMMENDATIONS. -/
def recMarker : List Char := "RECOMMENDATIONS".data

/-- The contentEnd computation of extractSection: the end of the whole text
when the end marker is null (none) or empty (both falsy in JavaScript) or
not found at or after contentStart, and the index of its first occurrence
from contentStart otherwise. -/
def sectionEnd (text : List Char) (contentStart : Nat) (endMarker : Option (List Char)) :
    Nat :=
  match endMarker with
  | some em =>
      if em.isEmpty then text.length
      else
        match jsIndexOf text em contentStart with
        | some endIndex => endIndex
        | none => text.length
  | none => text.length

/-- Translation of the client function extractSection(text, startMarker,
endMarker).  A missing endMarker argument (null) is the none case. -/
def extractSection (text startMarker : List Char) (endMarker : Option (List Char)) :
    List Char :=
  match jsIndexOf text startMarker 0 with
  | none => sentinel
  | some startIndex =>
      trimChars (jsSubstring text (startIndex + startMarker.length)
        (sectionEnd text (startIndex + startMarker.length) endMarker))

/-- JavaScript regular-expression line terminators: linefeed, carriage
return, line separator and paragraph separator.  The multiline anchors of
the bullet regexes break lines at exactly these characters, and the dot
never matches them. -/
def isLineTerm (c : Char) : Bool :=
  c = '\n' || c = '\r' || c = '\u2028' || c = '\u2029'

/-- Apply a function to every maximal line-terminator-free run of the text,
keeping the terminators in place; cur is the reversed current line. -/
def mapLinesAux (f : List Char → List Char) : List Char → List Char → List Char
  | cur, [] => f cur.reverse
  | cur, c :: rest =>
      if isLineTerm c then f cur.reverse ++ c :: mapLinesAux f [] rest
      else mapLinesAux f (c :: cur) rest

/-- Apply a function to every line of the text (lines are the maximal runs
free of line terminators). -/
def mapLines (f : List Char → List Char) (t : List Char) : List Char :=
  mapLinesAux f [] t

/-- The lines of a text, in order, without their terminators. -/
def linesOfAux : List Char → List Char → List (List Char)
  | cur, [] => [cur.reverse]
  | cur, c :: rest =>
      if isLineTerm c then cur.reverse :: linesOfAux [] rest
      else linesOfAux (c :: cur) rest

/-- The lines of a text. -/
def linesOf (t : List Char) : List (List Char) := linesOfAux [] t

/-- The list-item open tag. -/
def liOpen : List Char := "<li>".data

/-- The list-item close tag. -/
def liClose : List Char := "</li>".data

/-- The list open tag. -/
def ulOpen : List Char := "<ul>".data

/-- The list close tag. -/
def ulClose : List Char := "</ul>".data

/-- The explicit line-break marker. -/
def brTag : List Char := "<br>".data

/-- One replace pass of a bullet regex with multiline flag: a line that
starts with the given bullet marker is rewritten to a list item holding
the remainder of the line, any other line is left alone. -/
def bulletLine (pre l : List Char) : List Char :=
  if pre.isPrefixOf l then liOpen ++ l.drop pre.length ++ liClose else l

/-- The replace pass for lines starting with a dash bullet. -/
def dashPass (t : List Char) : List Char := mapLines (bulletLine "- ".data) t

/-- The replace pass for lines starting with a star bullet. -/
def starPass (t : List Char) : List Char := mapLines (bulletLine "* ".data) t

/-- The replace pass of the dotall list-wrapping regex.  With the dotall
flag the dot matches every character and the greedy repetition makes the
single match run from the first list-item open tag to the last list-item
close tag of the whole string; the global flag finds no second match since
no close tag remains after the first match.  The pass therefore wraps that
span, when it exists, in one list container and leaves everything else
unchanged. -/
def wrapUl (s : List Char) : List Char :=
  match jsIndexOf s liOpen 0 with
  | none => s
  | some a =>
    match lastOcc s liClose with
    | none => s
    | some b =>
      if a + liOpen.length ≤ b then
        s.take a ++ ulOpen ++ (s.drop a).take (b + liClose.length - a) ++ ulClose ++
          s.drop (b + liClose.length)
      else s

/-- The replace pass turning every linefeed into the line-break tag. -/
def replaceNl : List Char → List Char
  | [] => []
  | c :: rest => (if c = '\n' then brTag else [c]) ++ replaceNl rest

/-- Translation of the client function formatText(text): a null or empty
input yields the fallback literal, any other input is piped through the
two bullet passes, the list-wrapping pass and the linefeed pass. -/
def formatText (text : Option (List Char)) : List Char :=
  match text with
  | none => sentinel
  | some t => if t.isEmpty then sentinel else replaceNl (wrapUl (starPass (dashPass t)))

/-- The per-line conversion the two bullet passes amount to: a line that
starts with a dash or star bullet becomes a list item holding the rest of
the line with the bullet stripped. -/
def convLine (l : List Char) : List Char :=
  if "- ".data.isPrefixOf l then liOpen ++ l.drop 2 ++ liClose
  else if "* ".data.isPrefixOf l then liOpen ++ l.drop 2 ++ liClose
  else l

/-- The four formatted sections assembled by displayResults, in display
order. -/
def renderSections (analysis : List Char) : List (List Char) :=
  [formatText (some (extractSection analysis keyMarker (some suspMarker))),
   formatText (some (extractSection analysis suspMarker (some riskMarker))),
   formatText (some (extractSection analysis riskMarker (some recMarker))),
   formatText (some (extractSection analysis recMarker none))]

/-- Number of positions of s at which pat occurs. -/
def countOcc (s pat : List Char) : Nat :=
  ((List.range (s.length + 1)).filter (fun i => pat.isPrefixOf (s.drop i))).length

/-! ### Model of the analyze endpoint of server.js -/

/-- A JSON value occurring in the responses of the analyze endpoint. -/
inductive JVal where
  | s : List Char → JVal
  | b : Bool → JVal
deriving DecidableEq

/-- An HTTP response: status code and flat JSON body as ordered key-value
pairs. -/
structure HttpResponse where
  status : Nat
  body : List (List Char × JVal)
deriving DecidableEq

/-- The error JSON shape used by every failure path of the server. -/
def errBody (msg : List Char) : List (List Char × JVal) :=
  [("success".data, JVal.b false), ("error".data, JVal.s msg)]

/-- The object returned by analyzeLegalDocument on success and passed
unchanged to res.json: the AI text in the analysis field, then fileName,
fileType, timestamp and the success flag.  The timestamp is a parameter
of the model, the code taking the current time. -/
def analyzeResultBody (analysis fileName fileType timestamp : List Char) :
    List (List Char × JVal) :=
  [("analysis".data, JVal.s analysis), ("fileName".data, JVal.s fileName),
   ("fileType".data, JVal.s fileType), ("timestamp".data, JVal.s timestamp),
   ("success".data, JVal.b true)]

/-- A file arriving in the multipart form. -/
structure IncomingFile where
  originalname : List Char
  mimetype : List Char
  size : Nat

/-- ASCII lower-casing, as applied by toLowerCase to file extensions. -/
def toLowerChar (c : Char) : Char :=
  if 'A' ≤ c ∧ c ≤ 'Z' then Char.ofNat (c.toNat + 32) else c

/-- path.extname: the suffix of the name from its last dot, empty when the
name has no dot. -/
def extname (name : List Char) : List Char :=
  match lastOcc name ['.'] with
  | none => []
  | some i => name.drop i

/-- The test of the allowedTypes regex (jpeg, jpg, png or pdf): true when
any of the four alternatives occurs as a substring. -/
def typesTest (s : List Char) : Bool :=
  (jsIndexOf s "jpeg".data 0).isSome || (jsIndexOf s "jpg".data 0).isSome ||
    (jsIndexOf s "png".data 0).isSome || (jsIndexOf s "pdf".data 0).isSome

/-- The fileFilter of the multer configuration in server.js: the regex
must match both the lower-cased extension of the original name and the
mime type. -/
def allowedFile (f : IncomingFile) : Bool :=
  typesTest ((extname f.originalname).map toLowerChar) && typesTest f.mimetype

/-- The 10 MiB upload limit of the multer configuration. -/
def fileSizeLimit : Nat := 10 * 1024 * 1024

/-- Outcome of the multer middleware for one request.  Modelled from the
spec: multer is library code not part of this repository; per its
documented behaviour the fileFilter of server.js decides acceptance
first, the size limit then aborts an accepted oversized upload with the
LIMIT_FILE_SIZE error, and a request without a file reaches the route
handler with no file attached. -/
inductive MulterOutcome where
  | ok : IncomingFile → MulterOutcome
  | typeError : MulterOutcome
  | sizeError : MulterOutcome
  | noFile : MulterOutcome

/-- The multer stage applied to an optional incoming file. -/
def multerStage (incoming : Option IncomingFile) : MulterOutcome :=
  match incoming with
  | none => MulterOutcome.noFile
  | some f =>
      if allowedFile f = false then MulterOutcome.typeError
      else if fileSizeLimit < f.size then MulterOutcome.sizeError
      else MulterOutcome.ok f

/-- Outcome of the external AI call. -/
inductive AiOutcome where
  | success : List Char → AiOutcome
  | failure : List Char → AiOutcome

/-- The POST api/analyze route of server.js combined with the multer
middleware and the error-handling middleware: the pair holds the HTTP
response and whether the external AI service was invoked.  Multer errors
are mapped by the error middleware (LIMIT_FILE_SIZE to the 400 File too
large response, the fileFilter error to a 500 with its message); the
handler rejects a missing file with a 400 before checking the API key
(500 when missing), and otherwise invokes the AI, answering 200 with the
analyzeLegalDocument object on success or 500 with the wrapped error
message on failure. -/
def postAnalyze (incoming : Option IncomingFile) (apiKeyConfigured : Bool)
    (ai : AiOutcome) (timestamp : List Char) : HttpResponse × Bool :=
  match multerStage incoming with
  | MulterOutcome.sizeError =>
      (⟨400, errBody "File too large. Maximum size is 10MB.".data⟩, false)
  | MulterOutcome.typeError =>
      (⟨500, errBody "Only PDF and image files are allowed!".data⟩, false)
  | MulterOutcome.noFile => (⟨400, errBody "No file uploaded".data⟩, false)
  | MulterOutcome.ok f =>
      if apiKeyConfigured = false then
        (⟨500, errBody "Gemini API key not configured".data⟩, false)
      else
        match ai with
        | AiOutcome.success analysisText =>
            (⟨200, analyzeResultBody analysisText f.originalname
              ((extname f.originalname).map toLowerChar) timestamp⟩, true)
        | AiOutcome.failure msg =>
            (⟨500, errBody ("Analysis failed: ".data ++ msg)⟩, true)

/-! ### Characterization of the index-of scans -/

theorem findAux_eq_none (pat : List Char) :
    ∀ (t : List Char) (i : Nat),
      findAux pat t i = none ↔ ∀ k, ¬ pat <+: t.drop k := by
  intro t
  induction t with
  | nil =>
    intro i
    by_cases hp : pat <+: ([] : List Char)
    · have hb : pat.isPrefixOf ([] : List Char) = true := List.isPrefixOf_iff_prefix.mpr hp
      simp [findAux, hb, hp]
    · have hb : ¬ pat.isPrefixOf ([] : List Char) = true :=
        fun hc => hp (List.isPrefixOf_iff_prefix.mp hc)
      simp only [findAux, if_neg hb, List.drop_nil, true_iff]
      intro k
      simpa using hp
  | cons c rest ih =>
    intro i
    by_cases hp : pat <+: (c :: rest)
    · have hb : pat.isPrefixOf (c :: rest) = true := List.isPrefixOf_iff_prefix.mpr hp
      simp only [findAux, if_pos hb]
      constructor
      · intro h
        exact absurd h (by simp)
      · intro h
        exact absurd hp (by simpa using h 0)
    · have hb : ¬ pat.isPrefixOf (c :: rest) = true :=
        fun hc => hp (List.isPrefixOf_iff_prefix.mp hc)
      simp only [findAux, if_neg hb]
      rw [ih (i + 1)]
      constructor
      · intro h k
        cases k with
        | zero => simpa using hp
        | succ k => simpa using h k
      · intro h k
        simpa using h (k + 1)

theorem findAux_eq_some (pat : List Char) :
    ∀ (t : List Char) (i r : Nat),
      findAux pat t i = some r ↔
        ∃ k, r = i + k ∧ pat <+: t.drop k ∧ ∀ j, j < k → ¬ pat <+: t.drop j := by
  intro t
  induction t with
  | nil =>
    intro i r
    by_cases hp : pat <+: ([] : List Char)
    · have hb : pat.isPrefixOf ([] : List Char) = true := List.isPrefixOf_iff_prefix.mpr hp
      simp only [findAux, if_pos hb, Option.some.injEq, List.drop_nil]
      constructor
      · rintro rfl
        exact ⟨0, by omega, hp, by simp⟩
      · rintro ⟨k, rfl, -, hmin⟩
        rcases Nat.eq_zero_or_pos k with rfl | hk
        · simp
        · exact absurd hp (hmin 0 hk)
    · have hb : ¬ pat.isPrefixOf ([] : List Char) = true :=
        fun hc => hp (List.isPrefixOf_iff_prefix.mp hc)
      simp only [findAux, if_neg hb, List.drop_nil]
      constructor
      · intro h
        exact absurd h (by simp)
      · rintro ⟨k, -, hpre, -⟩
        exact absurd hpre hp
  | cons c rest ih =>
    intro i r
    by_cases hp : pat <+: (c :: rest)
    · have hb : pat.isPrefixOf (c :: rest) = true := List.isPrefixOf_iff_prefix.mpr hp
      simp only [findAux, if_pos hb, Option.some.injEq]
      constructor
      · rintro rfl
        exact ⟨0, by omega, by simpa using hp, by simp⟩
      · rintro ⟨k, rfl, -, hmin⟩
        rcases Nat.eq_zero_or_pos k with rfl | hk
        · simp
        · exact absurd (by simpa using hp) (hmin 0 hk)
    · have hb : ¬ pat.isPrefixOf (c :: rest) = true :=
        fun hc => hp (List.isPrefixOf_iff_prefix.mp hc)
      simp only [findAux, if_neg hb]
      rw [ih (i + 1) r]
      constructor
      · rintro ⟨k, rfl, hpre, hmin⟩
        refine ⟨k + 1, by omega, by simpa using hpre, ?_⟩
        intro j hj
        cases j with
        | zero => simpa using hp
        | succ j => simpa using hmin j (by omega)
      · rintro ⟨k, rfl, hpre, hmin⟩
        cases k with
        | zero => exact absurd (by simpa using hpre) hp
        | succ k =>
          exact ⟨k, by omega, by simpa using hpre, fun j hj => by
            simpa using hmin (j + 1) (by omega)⟩

theorem jsIndexOf_eq_none {text pat : List Char} {s : Nat} :
    jsIndexOf text pat s = none ↔
      ∀ j, min s text.length ≤ j → ¬ pat <+: text.drop j := by
  unfold jsIndexOf
  rw [Option.map_eq_none', findAux_eq_none]
  constructor
  · intro h j hj
    have h2 := h (j - min s text.length)
    rw [List.drop_drop, show min s text.length + (j - min s text.length) = j from by omega]
      at h2
    exact h2
  · intro h k
    rw [List.drop_drop]
    exact h (min s text.length + k) (by omega)

theorem jsIndexOf_eq_some {text pat : List Char} {s r : Nat} :
    jsIndexOf text pat s = some r ↔
      min s text.length ≤ r ∧ pat <+: text.drop r ∧
        ∀ j, j < r → min s text.length ≤ j → ¬ pat <+: text.drop j := by
  unfold jsIndexOf
  rw [Option.map_eq_some']
  constructor
  · rintro ⟨a, ha, hr⟩
    rw [findAux_eq_some] at ha
    obtain ⟨k, hk, hpre, hmin⟩ := ha
    rw [List.drop_drop] at hpre
    subst hr
    have hk0 : k = a := by omega
    subst hk0
    refine ⟨by omega, ?_, ?_⟩
    · rw [show k + min s text.length = min s text.length + k from by omega]
      exact hpre
    · intro j hj hj2
      have h2 := hmin (j - min s text.length) (by omega)
      rw [List.drop_drop,
        show min s text.length + (j - min s text.length) = j from by omega] at h2
      exact h2
  · rintro ⟨hle, hpre, hmin⟩
    refine ⟨r - min s text.length, ?_, by omega⟩
    rw [findAux_eq_some]
    refine ⟨r - min s text.length, by omega, ?_, ?_⟩
    · rw [List.drop_drop,
        show min s text.length + (r - min s text.length) = r from by omega]
      exact hpre
    · intro j hj
      exact fun hc => hmin (min s text.length + j) (by omega) (by omega)
        (by rwa [List.drop_drop] at hc)

/-- Convenient form: the first occurrence from the start of the text. -/
theorem jsIndexOf_zero_eq_some {text pat : List Char} {r : Nat} :
    jsIndexOf text pat 0 = some r ↔
      pat <+: text.drop r ∧ ∀ j, j < r → ¬ pat <+: text.drop j := by
  rw [jsIndexOf_eq_some]
  constructor
  · rintro ⟨-, hpre, hmin⟩
    exact ⟨hpre, fun j hj => hmin j hj (by omega)⟩
  · rintro ⟨hpre, hmin⟩
    exact ⟨by omega, hpre, fun j hj _ => hmin j hj⟩

theorem jsIndexOf_zero_eq_none {text pat : List Char} :
    jsIndexOf text pat 0 = none ↔ ∀ j, ¬ pat <+: text.drop j := by
  rw [jsIndexOf_eq_none]
  constructor
  · intro h j
    rcases Nat.lt_or_ge j text.length with hj | hj
    · exact h j (by omega)
    · intro hc
      have h2 := h text.length (by omega)
      rw [List.drop_of_length_le hj] at hc
      rw [List.drop_of_length_le (Nat.le_refl _)] at h2
      exact h2 hc
  · intro h j _
    exact h j

/-! ### Decomposition lemmas for substrings and trim -/

/-- A text splits around any occurrence of a pattern. -/
theorem prefix_drop_decomp {text pat : List Char} {p : Nat} (h : pat <+: text.drop p) :
    text = text.take p ++ pat ++ text.drop (p + pat.length) := by
  obtain ⟨rest, hrest⟩ := h
  have h2 : (text.drop p).drop pat.length = rest := by rw [← hrest, List.drop_left]
  have hd : text.drop (p + pat.length) = rest := by rw [← h2, List.drop_drop]
  conv_lhs => rw [← List.take_append_drop p text]
  rw [← hrest, hd]
  simp [List.append_assoc]

theorem mem_trimParts_left (s : List Char) :
    ∀ c ∈ s.takeWhile isJsWs, isJsWs c = true := fun _ h =>
  List.mem_takeWhile_imp h

/-- Any string is leading whitespace, its trim, and trailing whitespace. -/
theorem trim_decomp (g : List Char) :
    ∃ l r : List Char, (∀ c ∈ l, isJsWs c = true) ∧ (∀ c ∈ r, isJsWs c = true) ∧
      g = l ++ trimChars g ++ r := by
  refine ⟨(trimRight g).takeWhile isJsWs, (g.reverse.takeWhile isJsWs).reverse,
    mem_trimParts_left _, ?_, ?_⟩
  · intro c hc
    rw [List.mem_reverse] at hc
    exact List.mem_takeWhile_imp hc
  · have h0 : g.reverse = g.reverse.takeWhile isJsWs ++ g.reverse.dropWhile isJsWs :=
      (List.takeWhile_append_dropWhile isJsWs g.reverse).symm
    have h1 : g = trimRight g ++ (g.reverse.takeWhile isJsWs).reverse := by
      unfold trimRight
      have h3 := congrArg List.reverse h0
      rwa [List.reverse_reverse, List.reverse_append] at h3
    have h2 : trimRight g = (trimRight g).takeWhile isJsWs ++ trimChars g := by
      unfold trimChars trimLeft
      exact (List.takeWhile_append_dropWhile isJsWs (trimRight g)).symm
    conv_lhs => rw [h1]
    conv_lhs => rw [h2]

theorem dropWhile_head_not {p : Char → Bool} :
    ∀ {l : List Char} {c : Char}, (l.dropWhile p).head? = some c → p c = false := by
  intro l
  induction l with
  | nil => intro c h; simp [List.dropWhile] at h
  | cons a l ih =>
    intro c h
    rw [List.dropWhile_cons] at h
    by_cases hp : p a = true
    · rw [if_pos hp] at h
      exact ih h
    · rw [if_neg hp] at h
      rw [List.head?_cons, Option.some.injEq] at h
      subst h
      simpa using hp

theorem dropWhile_eq_self_of_head {p : Char → Bool} {l : List Char}
    (h : ∀ c, l.head? = some c → p c = false) : l.dropWhile p = l := by
  cases l with
  | nil => simp
  | cons a l =>
    rw [List.dropWhile_cons, if_neg (by simp [h a rfl])]

theorem trimLeft_eq_self {l : List Char}
    (h : ∀ c, l.head? = some c → isJsWs c = false) : trimLeft l = l :=
  dropWhile_eq_self_of_head h

theorem trimRight_eq_self {l : List Char}
    (h : ∀ c, l.getLast? = some c → isJsWs c = false) : trimRight l = l := by
  unfold trimRight
  rw [dropWhile_eq_self_of_head, List.reverse_reverse]
  intro c hc
  rw [List.head?_reverse] at hc
  exact h c hc

theorem trimChars_head {g : List Char} {c : Char} (h : (trimChars g).head? = some c) :
    isJsWs c = false := dropWhile_head_not h

theorem trimChars_getLast {g : List Char} {c : Char}
    (h : (trimChars g).getLast? = some c) : isJsWs c = false := by
  have hne : trimChars g ≠ [] := by
    intro he
    rw [he] at h
    simp at h
  have hsplit : trimRight g = (trimRight g).takeWhile isJsWs ++ trimChars g :=
    (List.takeWhile_append_dropWhile isJsWs (trimRight g)).symm
  have h2 : (trimRight g).getLast? = some c := by
    rw [hsplit, List.getLast?_append_of_ne_nil _ hne]
    exact h
  unfold trimRight at h2
  rw [List.getLast?_reverse] at h2
  exact dropWhile_head_not h2

/-- The JavaScript trim is idempotent. -/
theorem trim_trim (g : List Char) : trimChars (trimChars g) = trimChars g := by
  have h1 : trimRight (trimChars g) = trimChars g :=
    trimRight_eq_self fun c hc => trimChars_getLast hc
  show trimLeft (trimRight (trimChars g)) = trimChars g
  rw [h1]
  exact trimLeft_eq_self fun c hc => trimChars_head hc

/-- A found pattern splits the suffix it heads. -/
theorem prefix_drop_split {text pat : List Char} {p : Nat} (h : pat <+: text.drop p) :
    text.drop p = pat ++ text.drop (p + pat.length) := by
  obtain ⟨rest, hrest⟩ := h
  have hd : text.drop (p + pat.length) = rest := by
    have h2 : (text.drop p).drop pat.length = rest := by rw [← hrest, List.drop_left]
    rw [← h2, List.drop_drop]
  rw [hd, ← hrest]

/-! ### Branch lemmas for extractSection -/

theorem jsSubstring_eq {text : List Char} {a b : Nat} (hab : a ≤ b) (hb : b ≤ text.length) :
    jsSubstring text a b = (text.drop a).take (b - a) := by
  unfold jsSubstring
  rw [show min (min a text.length) (min b text.length) = a from by omega,
    show max (min a text.length) (min b text.length) = b from by omega]

theorem extractSection_eq_sentinel {text sm : List Char}
    (h : ∀ i, ¬ sm <+: text.drop i) (em : Option (List Char)) :
    extractSection text sm em = sentinel := by
  unfold extractSection
  rw [jsIndexOf_zero_eq_none.mpr h]

theorem extractSection_eq_of_idx {text sm : List Char} {em : Option (List Char)} {i : Nat}
    (h : jsIndexOf text sm 0 = some i) :
    extractSection text sm em =
      trimChars (jsSubstring text (i + sm.length)
        (sectionEnd text (i + sm.length) em)) := by
  unfold extractSection
  rw [h]

theorem sectionEnd_none {text : List Char} {cs : Nat} :
    sectionEnd text cs none = text.length := rfl

theorem sectionEnd_empty {text : List Char} {cs : Nat} :
    sectionEnd text cs (some []) = text.length := rfl

theorem sectionEnd_found {text em : List Char} {cs e : Nat} (hem : em ≠ [])
    (h : jsIndexOf text em cs = some e) :
    sectionEnd text cs (some em) = e := by
  simp only [sectionEnd]
  rw [if_neg (by simpa [List.isEmpty_iff] using hem), h]

theorem sectionEnd_notfound {text em : List Char} {cs : Nat} (hem : em ≠ [])
    (h : jsIndexOf text em cs = none) :
    sectionEnd text cs (some em) = text.length := by
  simp only [sectionEnd]
  rw [if_neg (by simpa [List.isEmpty_iff] using hem), h]

/-- The content offset right after a found start marker never exceeds the
length of the text. -/
theorem contentStart_le_length {text sm : List Char} {i : Nat} (h : sm <+: text.drop i)
    (hmin : ∀ j, j < i → ¬ sm <+: text.drop j) : i + sm.length ≤ text.length := by
  by_cases hi : i ≤ text.length
  · have := h.length_le
    rw [List.length_drop] at this
    omega
  · exfalso
    rw [List.drop_of_length_le (by omega)] at h
    have hsm : sm = [] := List.prefix_nil.mp h
    exact hmin text.length (by omega) (by simp [hsm])

/-- Found start marker, no end marker: the section is the trimmed remainder
of the text. -/
theorem extractSection_none_found {text sm : List Char} {i : Nat}
    (hpre : sm <+: text.drop i) (hmin : ∀ j, j < i → ¬ sm <+: text.drop j) :
    extractSection text sm none = trimChars (text.drop (i + sm.length)) := by
  have hcs := contentStart_le_length hpre hmin
  rw [extractSection_eq_of_idx (jsIndexOf_zero_eq_some.mpr ⟨hpre, hmin⟩),
    sectionEnd_none, jsSubstring_eq hcs (Nat.le_refl _),
    List.take_of_length_le (by rw [List.length_drop])]

/-- Found start marker, end marker present but occurring nowhere at or
after the content offset: the section also runs to the end of the text. -/
theorem extractSection_some_notfound {text sm em : List Char} {i : Nat}
    (hpre : sm <+: text.drop i) (hmin : ∀ j, j < i → ¬ sm <+: text.drop j)
    (hem : em ≠ []) (hnone : ∀ j, i + sm.length ≤ j → ¬ em <+: text.drop j) :
    extractSection text sm (some em) = trimChars (text.drop (i + sm.length)) := by
  have hcs := contentStart_le_length hpre hmin
  have hn : jsIndexOf text em (i + sm.length) = none :=
    jsIndexOf_eq_none.mpr (fun j hj => hnone j (by omega))
  rw [extractSection_eq_of_idx (jsIndexOf_zero_eq_some.mpr ⟨hpre, hmin⟩),
    sectionEnd_notfound hem hn, jsSubstring_eq hcs (Nat.le_refl _),
    List.take_of_length_le (by rw [List.length_drop])]

/-- Found start marker and first occurrence of the end marker at or after
the content offset: the section is the trimmed slice in between. -/
theorem extractSection_some_found {text sm em : List Char} {i e : Nat}
    (hpre : sm <+: text.drop i) (hmin : ∀ j, j < i → ¬ sm <+: text.drop j)
    (hem : em ≠ []) (hele : i + sm.length ≤ e) (hepre : em <+: text.drop e)
    (hemin : ∀ j, j < e → i + sm.length ≤ j → ¬ em <+: text.drop j) :
    extractSection text sm (some em) =
      trimChars ((text.drop (i + sm.length)).take (e - (i + sm.length))) := by
  have hcs := contentStart_le_length hpre hmin
  have he : e ≤ text.length := by
    by_contra hc
    rw [List.drop_of_length_le (by omega)] at hepre
    exact hem (List.prefix_nil.mp hepre)
  have hf : jsIndexOf text em (i + sm.length) = some e :=
    jsIndexOf_eq_some.mpr ⟨by omega, hepre, fun j hj hj2 => hemin j hj (by omega)⟩
  rw [extractSection_eq_of_idx (jsIndexOf_zero_eq_some.mpr ⟨hpre, hmin⟩),
    sectionEnd_found hem hf, jsSubstring_eq hele he]

/-- An empty end marker is falsy in JavaScript, so it behaves like a null
one. -/
theorem extractSection_empty_em {text sm : List Char} :
    extractSection text sm (some []) = extractSection text sm none := by
  cases h : jsIndexOf text sm 0 with
  | none =>
    unfold extractSection
    rw [h]
  | some i =>
    rw [extractSection_eq_of_idx h, extractSection_eq_of_idx h, sectionEnd_empty,
      sectionEnd_none]

/-- C1: extractSection locates the first occurrence of the start marker by
plain case-sensitive substring search; if the start marker is absent the
result is the sentinel No information found.  If present, the content
begins right after the marker and ends at the first occurrence of the end
marker at or after that offset, or at the end of the text when the end
marker is null (or empty, both falsy) or not found from that offset, and
the content is returned trimmed of leading and trailing whitespace.  In
particular with start marker RECOMMENDATIONS and a null end marker the
result is always everything after the first occurrence of that marker,
trimmed. -/
theorem extractSection_correct (text sm em : List Char) :
    ((∀ i, ¬ sm <+: text.drop i) →
        extractSection text sm (some em) = sentinel ∧
        extractSection text sm none = sentinel) ∧
    (∀ i, sm <+: text.drop i → (∀ j, j < i → ¬ sm <+: text.drop j) →
        extractSection text sm none = trimChars (text.drop (i + sm.length)) ∧
        (em ≠ [] → (∀ j, i + sm.length ≤ j → ¬ em <+: text.drop j) →
          extractSection text sm (some em) = trimChars (text.drop (i + sm.length))) ∧
        (∀ e, em ≠ [] → i + sm.length ≤ e → em <+: text.drop e →
          (∀ j, j < e → i + sm.length ≤ j → ¬ em <+: text.drop j) →
          extractSection text sm (some em) =
            trimChars ((text.drop (i + sm.length)).take (e - (i + sm.length))))) ∧
    extractSection text sm (some []) = extractSection text sm none ∧
    (∀ i, recMarker <+: text.drop i → (∀ j, j < i → ¬ recMarker <+: text.drop j) →
        extractSection text recMarker none =
          trimChars (text.drop (i + recMarker.length))) := by
  refine ⟨fun h => ⟨extractSection_eq_sentinel h _, extractSection_eq_sentinel h _⟩,
    fun i hpre hmin => ⟨extractSection_none_found hpre hmin,
      fun hem hnone => extractSection_some_notfound hpre hmin hem hnone,
      fun e hem hele hepre hemin =>
        extractSection_some_found hpre hmin hem hele hepre hemin⟩,
    extractSection_empty_em,
    fun i hpre hmin => extractSection_none_found hpre hmin⟩

/-- Witness for C1: concrete instances of the found and the absent branch. -/
theorem extractSection_correct_witness :
    extractSection "KEY IMPORTANT POINTS x SUSPICIOUS ELEMENTS tail".data keyMarker
        (some suspMarker) = "x".data ∧
    extractSection "nothing here".data keyMarker (some suspMarker) = sentinel := by
  constructor
  · have h := (extractSection_correct
      "KEY IMPORTANT POINTS x SUSPICIOUS ELEMENTS tail".data keyMarker suspMarker).2.1
      0 (by decide) (fun j hj => absurd hj (Nat.not_lt_zero j))
    have h2 := h.2.2 23 (by decide) (by decide) (by decide) (by decide)
    exact h2.trans (by decide)
  · exact ((extractSection_correct "nothing here".data keyMarker suspMarker).1
      (jsIndexOf_zero_eq_none.mp (by decide))).1

/-- C3 (amended): for a text containing the four markers, each taken at its
first occurrence, in ascending non-overlapping positions, the four
extracted sections are whitespace-trimmed, and reinserting the marker
labels, the trimmed whitespace and the text preceding the first marker
reconstructs the original text exactly; the displayed decomposition also
shows the four sections occupying pairwise disjoint ranges of the text. -/
theorem sections_reconstruct (text : List Char) (p1 p2 p3 p4 : Nat)
    (h1 : keyMarker <+: text.drop p1) (m1 : ∀ j, j < p1 → ¬ keyMarker <+: text.drop j)
    (h2 : suspMarker <+: text.drop p2) (m2 : ∀ j, j < p2 → ¬ suspMarker <+: text.drop j)
    (h3 : riskMarker <+: text.drop p3) (m3 : ∀ j, j < p3 → ¬ riskMarker <+: text.drop j)
    (h4 : recMarker <+: text.drop p4) (m4 : ∀ j, j < p4 → ¬ recMarker <+: text.drop j)
    (o12 : p1 + keyMarker.length ≤ p2) (o23 : p2 + suspMarker.length ≤ p3)
    (o34 : p3 + riskMarker.length ≤ p4) :
    trimChars (extractSection text keyMarker (some suspMarker)) =
      extractSection text keyMarker (some suspMarker) ∧
    trimChars (extractSection text suspMarker (some riskMarker)) =
      extractSection text suspMarker (some riskMarker) ∧
    trimChars (extractSection text riskMarker (some recMarker)) =
      extractSection text riskMarker (some recMarker) ∧
    trimChars (extractSection text recMarker none) =
      extractSection text recMarker none ∧
    ∃ l1 r1 l2 r2 l3 r3 l4 r4 : List Char,
      (∀ c ∈ l1, isJsWs c = true) ∧ (∀ c ∈ r1, isJsWs c = true) ∧
      (∀ c ∈ l2, isJsWs c = true) ∧ (∀ c ∈ r2, isJsWs c = true) ∧
      (∀ c ∈ l3, isJsWs c = true) ∧ (∀ c ∈ r3, isJsWs c = true) ∧
      (∀ c ∈ l4, isJsWs c = true) ∧ (∀ c ∈ r4, isJsWs c = true) ∧
      text = text.take p1 ++ keyMarker ++
        (l1 ++ extractSection text keyMarker (some suspMarker) ++ r1) ++ suspMarker ++
        (l2 ++ extractSection text suspMarker (some riskMarker) ++ r2) ++ riskMarker ++
        (l3 ++ extractSection text riskMarker (some recMarker) ++ r3) ++ recMarker ++
        (l4 ++ extractSection text recMarker none ++ r4) := by
  have e1 : extractSection text keyMarker (some suspMarker) =
      trimChars ((text.drop (p1 + keyMarker.length)).take
        (p2 - (p1 + keyMarker.length))) :=
    extractSection_some_found h1 m1 (by decide) o12 h2 (fun j hj _ => m2 j hj)
  have e2 : extractSection text suspMarker (some riskMarker) =
      trimChars ((text.drop (p2 + suspMarker.length)).take
        (p3 - (p2 + suspMarker.length))) :=
    extractSection_some_found h2 m2 (by decide) o23 h3 (fun j hj _ => m3 j hj)
  have e3 : extractSection text riskMarker (some recMarker) =
      trimChars ((text.drop (p3 + riskMarker.length)).take
        (p4 - (p3 + riskMarker.length))) :=
    extractSection_some_found h3 m3 (by decide) o34 h4 (fun j hj _ => m4 j hj)
  have e4 : extractSection text recMarker none =
      trimChars (text.drop (p4 + recMarker.length)) :=
    extractSection_none_found h4 m4
  obtain ⟨l1, r1, w1a, w1b, d1⟩ := trim_decomp
    ((text.drop (p1 + keyMarker.length)).take (p2 - (p1 + keyMarker.length)))
  obtain ⟨l2, r2, w2a, w2b, d2⟩ := trim_decomp
    ((text.drop (p2 + suspMarker.length)).take (p3 - (p2 + suspMarker.length)))
  obtain ⟨l3, r3, w3a, w3b, d3⟩ := trim_decomp
    ((text.drop (p3 + riskMarker.length)).take (p4 - (p3 + riskMarker.length)))
  obtain ⟨l4, r4, w4a, w4b, d4⟩ := trim_decomp (text.drop (p4 + recMarker.length))
  refine ⟨by rw [e1, trim_trim], by rw [e2, trim_trim], by rw [e3, trim_trim],
    by rw [e4, trim_trim], l1, r1, l2, r2, l3, r3, l4, r4,
    w1a, w1b, w2a, w2b, w3a, w3b, w4a, w4b, ?_⟩
  rw [e1, e2, e3, e4, ← d1, ← d2, ← d3, ← d4]
  have S1 : text.drop (p1 + keyMarker.length) =
      (text.drop (p1 + keyMarker.length)).take (p2 - (p1 + keyMarker.length)) ++
        text.drop p2 := by
    conv_lhs => rw [← List.take_append_drop (p2 - (p1 + keyMarker.length))
      (text.drop (p1 + keyMarker.length))]
    congr 1
    rw [List.drop_drop,
      show p1 + keyMarker.length + (p2 - (p1 + keyMarker.length)) = p2 from by omega]
  have S2 : text.drop (p2 + suspMarker.length) =
      (text.drop (p2 + suspMarker.length)).take (p3 - (p2 + suspMarker.length)) ++
        text.drop p3 := by
    conv_lhs => rw [← List.take_append_drop (p3 - (p2 + suspMarker.length))
      (text.drop (p2 + suspMarker.length))]
    congr 1
    rw [List.drop_drop,
      show p2 + suspMarker.length + (p3 - (p2 + suspMarker.length)) = p3 from by omega]
  have S3 : text.drop (p3 + riskMarker.length) =
      (text.drop (p3 + riskMarker.length)).take (p4 - (p3 + riskMarker.length)) ++
        text.drop p4 := by
    conv_lhs => rw [← List.take_append_drop (p4 - (p3 + riskMarker.length))
      (text.drop (p3 + riskMarker.length))]
    congr 1
    rw [List.drop_drop,
      show p3 + riskMarker.length + (p4 - (p3 + riskMarker.length)) = p4 from by omega]
  conv_lhs => rw [← List.take_append_drop p1 text, prefix_drop_split h1, S1,
    prefix_drop_split h2, S2, prefix_drop_split h3, S3, prefix_drop_split h4]
  simp [List.append_assoc]

/-- Witness for C3: a concrete well-formed text reconstructed from its four
extracted sections, the markers and the trimmed whitespace. -/
theorem sections_reconstruct_witness :
    ∃ l1 r1 l2 r2 l3 r3 l4 r4 : List Char,
      (∀ c ∈ l1, isJsWs c = true) ∧ (∀ c ∈ r1, isJsWs c = true) ∧
      (∀ c ∈ l2, isJsWs c = true) ∧ (∀ c ∈ r2, isJsWs c = true) ∧
      (∀ c ∈ l3, isJsWs c = true) ∧ (∀ c ∈ r3, isJsWs c = true) ∧
      (∀ c ∈ l4, isJsWs c = true) ∧ (∀ c ∈ r4, isJsWs c = true) ∧
      ("KEY IMPORTANT POINTS a SUSPICIOUS ELEMENTS b RISK ASSESSMENT c RECOMMENDATIONS d".data : List Char) =
        ("KEY IMPORTANT POINTS a SUSPICIOUS ELEMENTS b RISK ASSESSMENT c RECOMMENDATIONS d".data : List Char).take 0 ++ keyMarker ++
        (l1 ++ extractSection "KEY IMPORTANT POINTS a SUSPICIOUS ELEMENTS b RISK ASSESSMENT c RECOMMENDATIONS d".data keyMarker (some suspMarker) ++ r1) ++ suspMarker ++
        (l2 ++ extractSection "KEY IMPORTANT POINTS a SUSPICIOUS ELEMENTS b RISK ASSESSMENT c RECOMMENDATIONS d".data suspMarker (some riskMarker) ++ r2) ++ riskMarker ++
        (l3 ++ extractSection "KEY IMPORTANT POINTS a SUSPICIOUS ELEMENTS b RISK ASSESSMENT c RECOMMENDATIONS d".data riskMarker (some recMarker) ++ r3) ++ recMarker ++
        (l4 ++ extractSection "KEY IMPORTANT POINTS a SUSPICIOUS ELEMENTS b RISK ASSESSMENT c RECOMMENDATIONS d".data recMarker none ++ r4) :=
  (sections_reconstruct
    "KEY IMPORTANT POINTS a SUSPICIOUS ELEMENTS b RISK ASSESSMENT c RECOMMENDATIONS d".data
    0 23 45 63 (by decide) (by decide) (by decide) (by decide) (by decide) (by decide)
    (by decide) (by decide) (by decide) (by decide) (by decide)).2.2.2.2

/-- Counterexample for C3 as stated: a text that contains all four markers
in ascending order but has one extra character before the first marker.
Concatenating the marker labels, the trimmed whitespace and the four
extracted sections cannot reproduce this text, because the claimed
reconstruction starts with the first marker label while the text does
not. -/
theorem sections_reconstruct_cex :
    ¬ ∃ l1 r1 l2 r2 l3 r3 l4 r4 : List Char,
      ("xKEY IMPORTANT POINTSaSUSPICIOUS ELEMENTSbRISK ASSESSMENTcRECOMMENDATIONSd".data : List Char) =
        keyMarker ++
        (l1 ++ extractSection "xKEY IMPORTANT POINTSaSUSPICIOUS ELEMENTSbRISK ASSESSMENTcRECOMMENDATIONSd".data keyMarker (some suspMarker) ++ r1) ++ suspMarker ++
        (l2 ++ extractSection "xKEY IMPORTANT POINTSaSUSPICIOUS ELEMENTSbRISK ASSESSMENTcRECOMMENDATIONSd".data suspMarker (some riskMarker) ++ r2) ++ riskMarker ++
        (l3 ++ extractSection "xKEY IMPORTANT POINTSaSUSPICIOUS ELEMENTSbRISK ASSESSMENTcRECOMMENDATIONSd".data riskMarker (some recMarker) ++ r3) ++ recMarker ++
        (l4 ++ extractSection "xKEY IMPORTANT POINTSaSUSPICIOUS ELEMENTSbRISK ASSESSMENTcRECOMMENDATIONSd".data recMarker none ++ r4) := by
  rintro ⟨l1, r1, l2, r2, l3, r3, l4, r4, heq⟩
  rw [show keyMarker = 'K' :: "EY IMPORTANT POINTS".data from by decide] at heq
  simp only [List.cons_append] at heq
  injection heq with hxk
  exact absurd hxk (by decide)

/-! ### Line structure of the bullet passes -/

theorem mapLinesAux_of_no_term (g : List Char → List Char) :
    ∀ (s cur : List Char), (∀ c ∈ s, isLineTerm c = false) →
      mapLinesAux g cur s = g (cur.reverse ++ s) := by
  intro s
  induction s with
  | nil =>
    intro cur h
    simp [mapLinesAux]
  | cons c rest ih =>
    intro cur h
    have hc : isLineTerm c = false := h c (by simp)
    simp only [mapLinesAux]
    rw [if_neg (by simp [hc]), ih (c :: cur) (fun d hd => h d (by simp [hd]))]
    congr 1
    simp

theorem mapLinesAux_term_split (g : List Char → List Char) {a : List Char} {c : Char}
    (z : List Char) (hc : isLineTerm c = true)
    (ha : ∀ d ∈ a, isLineTerm d = false) :
    ∀ cur, mapLinesAux g cur (a ++ c :: z) =
      g (cur.reverse ++ a) ++ c :: mapLinesAux g [] z := by
  induction a with
  | nil =>
    intro cur
    simp only [List.nil_append, mapLinesAux]
    rw [if_pos hc]
    simp
  | cons d a' ih =>
    intro cur
    have hd : isLineTerm d = false := ha d (by simp)
    simp only [List.cons_append, mapLinesAux, List.append_eq]
    rw [if_neg (by simp [hd]), ih (fun e he => ha e (by simp [he])) (d :: cur)]
    congr 2
    simp

theorem mapLines_comp (f g : List Char → List Char)
    (hf : ∀ l, (∀ c ∈ l, isLineTerm c = false) → ∀ c ∈ f l, isLineTerm c = false) :
    ∀ (t cur : List Char), (∀ c ∈ cur, isLineTerm c = false) →
      mapLines g (mapLinesAux f cur t) = mapLinesAux (fun l => g (f l)) cur t := by
  intro t
  induction t with
  | nil =>
    intro cur hcur
    show mapLinesAux g [] (f cur.reverse) = _
    rw [mapLinesAux_of_no_term g (f cur.reverse) []
      (hf cur.reverse (fun c hcm => hcur c (List.mem_reverse.mp hcm)))]
    simp [mapLinesAux]
  | cons c rest ih =>
    intro cur hcur
    by_cases hc : isLineTerm c = true
    · simp only [mapLinesAux]
      rw [if_pos hc, if_pos hc]
      show mapLinesAux g [] _ = _
      rw [mapLinesAux_term_split g (mapLinesAux f [] rest) hc
        (hf cur.reverse (fun d hdm => hcur d (List.mem_reverse.mp hdm))) []]
      rw [show mapLinesAux g [] (mapLinesAux f [] rest) =
        mapLines g (mapLinesAux f [] rest) from rfl, ih [] (by simp)]
      simp
    · simp only [mapLinesAux]
      rw [if_neg hc, if_neg hc,
        ih (c :: cur) (fun d hd => by
          rcases List.mem_cons.mp hd with rfl | hd2
          · simpa using hc
          · exact hcur d hd2)]

theorem bulletLine_no_term (pre : List Char) {l : List Char}
    (h : ∀ c ∈ l, isLineTerm c = false) :
    ∀ c ∈ bulletLine pre l, isLineTerm c = false := by
  intro c hc
  unfold bulletLine at hc
  by_cases hp : pre.isPrefixOf l = true
  · rw [if_pos hp] at hc
    have hli : ∀ c ∈ liOpen, isLineTerm c = false := by decide
    have hlc : ∀ c ∈ liClose, isLineTerm c = false := by decide
    simp only [List.mem_append] at hc
    rcases hc with (hc | hc) | hc
    · exact hli c hc
    · exact h c (List.mem_of_mem_drop hc)
    · exact hlc c hc
  · rw [if_neg hp] at hc
    exact h c hc

theorem star_not_prefix_li (X Y : List Char) :
    ("* ".data).isPrefixOf (liOpen ++ X ++ Y) = false := by
  rw [show ("* ".data : List Char) = '*' :: [' '] from by decide,
    show liOpen = '<' :: "li>".data from by decide, List.cons_append, List.cons_append]
  simp [List.isPrefixOf, show ('*' == '<') = false from by decide]

/-- The two bullet passes compose, per line, to the single conversion
convLine. -/
theorem bullet_comp (l : List Char) :
    bulletLine "* ".data (bulletLine "- ".data l) = convLine l := by
  unfold bulletLine convLine
  by_cases h1 : ("- ".data).isPrefixOf l = true
  · have hstar := star_not_prefix_li (l.drop ("- ".data : List Char).length) liClose
    rw [if_pos h1, if_pos h1, if_neg (by rw [hstar]; simp)]
    rw [show ("- ".data : List Char).length = 2 from by decide]
  · rw [if_neg h1, if_neg h1]
    by_cases h2 : ("* ".data).isPrefixOf l = true
    · rw [if_pos h2, if_pos h2,
        show ("* ".data : List Char).length = 2 from by decide]
    · rw [if_neg h2, if_neg h2]

/-- The two bullet replace passes amount to one per-line conversion. -/
theorem passes_eq_mapLines_conv (t : List Char) :
    starPass (dashPass t) = mapLines convLine t := by
  unfold starPass dashPass
  rw [show mapLines (bulletLine "- ".data) t =
      mapLinesAux (bulletLine "- ".data) [] t from rfl,
    mapLines_comp (bulletLine "- ".data) (bulletLine "* ".data)
      (fun l hl => bulletLine_no_term "- ".data hl) t [] (by simp)]
  unfold mapLines
  congr 1
  funext l
  exact bullet_comp l

/-- The non-empty branch of formatText as the composed pipeline. -/
theorem formatText_pipeline {t : List Char} (ht : t ≠ []) :
    formatText (some t) = replaceNl (wrapUl (mapLines convLine t)) := by
  simp only [formatText]
  rw [if_neg (by simpa [List.isEmpty_iff] using ht), passes_eq_mapLines_conv]

theorem replaceNl_no_nl (s : List Char) : '\n' ∉ replaceNl s := by
  induction s with
  | nil => simp [replaceNl]
  | cons c rest ih =>
    simp only [replaceNl, List.mem_append]
    rintro (h | h)
    · by_cases hc : c = '\n'
      · rw [if_pos hc] at h
        exact absurd h (by decide)
      · rw [if_neg hc] at h
        rw [List.mem_singleton] at h
        exact hc h.symm
    · exact ih h

theorem mem_replaceNl_of_mem {s : List Char} {c : Char} (hc : c ≠ '\n') :
    c ∈ s → c ∈ replaceNl s := by
  induction s with
  | nil => simp
  | cons a rest ih =>
    intro h
    simp only [replaceNl, List.mem_append]
    rcases List.mem_cons.mp h with rfl | h2
    · left
      rw [if_neg hc]
      simp
    · right
      exact ih h2

theorem mapLinesAux_id (f : List Char → List Char) :
    ∀ (t cur : List Char), (∀ l ∈ linesOfAux cur t, f l = l) →
      mapLinesAux f cur t = cur.reverse ++ t := by
  intro t
  induction t with
  | nil =>
    intro cur h
    have h0 : f cur.reverse = cur.reverse := h cur.reverse (by simp [linesOfAux])
    simp [mapLinesAux, h0]
  | cons c rest ih =>
    intro cur h
    by_cases hc : isLineTerm c = true
    · have hmem : linesOfAux cur (c :: rest) = cur.reverse :: linesOfAux [] rest := by
        simp only [linesOfAux]
        rw [if_pos hc]
      rw [hmem] at h
      have h0 : f cur.reverse = cur.reverse := h cur.reverse (by simp)
      have h1 := ih [] (fun l hl => h l (by simp [hl]))
      simp only [mapLinesAux]
      rw [if_pos hc, h0, h1]
      simp
    · have hmem : linesOfAux cur (c :: rest) = linesOfAux (c :: cur) rest := by
        simp only [linesOfAux]
        rw [if_neg hc]
      rw [hmem] at h
      have h1 := ih (c :: cur) h
      simp only [mapLinesAux]
      rw [if_neg hc, h1]
      simp

/-- A text none of whose lines starts with a bullet is left unchanged by
the per-line conversion. -/
theorem mapLines_id_of_noBullet {t : List Char}
    (h : ∀ l ∈ linesOf t, ¬ ("- ".data <+: l) ∧ ¬ ("* ".data <+: l)) :
    mapLines convLine t = t := by
  unfold mapLines
  rw [mapLinesAux_id convLine t [] ?hl]
  · simp
  case hl =>
    intro l hl
    obtain ⟨hd, hs⟩ := h l hl
    unfold convLine
    rw [if_neg (fun hc => hd (List.isPrefixOf_iff_prefix.mp hc)),
      if_neg (fun hc => hs (List.isPrefixOf_iff_prefix.mp hc))]

/-- A string without the chevron character contains no list-item tag, so
the list-wrapping pass leaves it unchanged. -/
theorem wrapUl_id_of_no_lt {s : List Char} (h : '<' ∉ s) : wrapUl s = s := by
  unfold wrapUl
  rw [jsIndexOf_zero_eq_none.mpr ?hn]
  case hn =>
    intro j hc
    exact h (List.mem_of_mem_drop (hc.subset (by decide)))

/-- Formatting with no bulleted lines and no chevrons flows the text with
only newlines rewritten. -/
theorem formatText_flows {t : List Char} (ht : t ≠ [])
    (hb : ∀ l ∈ linesOf t, ¬ ("- ".data <+: l) ∧ ¬ ("* ".data <+: l))
    (hlt : '<' ∉ t) :
    formatText (some t) = replaceNl t := by
  rw [formatText_pipeline ht, mapLines_id_of_noBullet hb, wrapUl_id_of_no_lt hlt]

/-! ### Length and infix facts -/

theorem length_convLine (l : List Char) : l.length ≤ (convLine l).length := by
  unfold convLine
  have h2 : ("- ".data : List Char).length = 2 := by decide
  have h3 : ("* ".data : List Char).length = 2 := by decide
  by_cases h1 : ("- ".data).isPrefixOf l = true
  · rw [if_pos h1]
    have hle := (List.isPrefixOf_iff_prefix.mp h1).length_le
    rw [List.length_append, List.length_append, List.length_drop,
      show (liOpen : List Char).length = 4 from by decide,
      show (liClose : List Char).length = 5 from by decide]
    omega
  · rw [if_neg h1]
    by_cases hs : ("* ".data).isPrefixOf l = true
    · rw [if_pos hs]
      have hle := (List.isPrefixOf_iff_prefix.mp hs).length_le
      rw [List.length_append, List.length_append, List.length_drop,
        show (liOpen : List Char).length = 4 from by decide,
        show (liClose : List Char).length = 5 from by decide]
      omega
    · rw [if_neg hs]

theorem length_mapLinesAux (f : List Char → List Char)
    (hf : ∀ l, l.length ≤ (f l).length) :
    ∀ (t cur : List Char), cur.length + t.length ≤ (mapLinesAux f cur t).length := by
  intro t
  induction t with
  | nil =>
    intro cur
    have := hf cur.reverse
    simp only [mapLinesAux, List.length_nil]
    simp at this
    omega
  | cons c rest ih =>
    intro cur
    by_cases hc : isLineTerm c = true
    · simp only [mapLinesAux]
      rw [if_pos hc]
      have h1 := hf cur.reverse
      have h2 := ih []
      rw [List.length_append, List.length_cons]
      simp at h1 h2
      simp
      omega
    · simp only [mapLinesAux]
      rw [if_neg hc]
      have h1 := ih (c :: cur)
      simp at h1 ⊢
      omega

theorem length_wrapUl (s : List Char) : s.length ≤ (wrapUl s).length := by
  unfold wrapUl
  split
  · exact Nat.le_refl _
  · split
    · exact Nat.le_refl _
    · split
      · simp only [List.length_append, List.length_take, List.length_drop]
        omega
      · exact Nat.le_refl _

theorem length_replaceNl (s : List Char) : s.length ≤ (replaceNl s).length := by
  induction s with
  | nil => simp [replaceNl]
  | cons c rest ih =>
    simp only [replaceNl, List.length_append, List.length_cons]
    by_cases hc : c = '\n'
    · rw [if_pos hc, show (brTag : List Char).length = 4 from by decide]
      omega
    · rw [if_neg hc, List.length_singleton]
      omega

theorem formatText_ne_nil (u : Option (List Char)) : formatText u ≠ [] := by
  match u with
  | none => decide
  | some t =>
    by_cases ht : t = []
    · subst ht
      decide
    · have hlen : t.length ≤ (formatText (some t)).length := by
        rw [formatText_pipeline ht]
        calc t.length ≤ (mapLines convLine t).length := by
              have := length_mapLinesAux convLine length_convLine t []
              simpa using this
          _ ≤ (wrapUl (mapLines convLine t)).length := length_wrapUl _
          _ ≤ (replaceNl (wrapUl (mapLines convLine t))).length := length_replaceNl _
      intro he
      rw [he] at hlen
      simp at hlen
      exact ht hlen

theorem jsSubstring_inside (t : List Char) (a b : Nat) : jsSubstring t a b <:+: t := by
  unfold jsSubstring
  exact ((List.take_prefix _ _).isInfix).trans ((List.drop_suffix _ _).isInfix)

theorem trim_inside (s : List Char) : trimChars s <:+: s := by
  obtain ⟨l, r, -, -, h⟩ := trim_decomp s
  exact ⟨l, r, h.symm⟩

theorem extractSection_sentinel_or_inside (t sm : List Char) (em : Option (List Char)) :
    extractSection t sm em = sentinel ∨ extractSection t sm em <:+: t := by
  unfold extractSection
  cases h : jsIndexOf t sm 0 with
  | none =>
    left
    rfl
  | some i =>
    right
    exact (trim_inside _).trans (jsSubstring_inside _ _ _)

/-- C5: formatText returns the sentinel literal unmodified on null input,
on empty input, and on the sentinel itself. -/
theorem formatText_sentinel_cases :
    formatText none = sentinel ∧ formatText (some []) = sentinel ∧
      formatText (some sentinel) = sentinel :=
  ⟨rfl, by decide, by decide⟩

/-- C6: on every input the extractor and the formatter are total functions
producing a renderable string: extractSection always yields either the
sentinel or a contiguous piece of its input text (it never throws and
never fabricates characters), and formatText always yields a non-empty
string. -/
theorem extract_format_total (t sm : List Char) (em : Option (List Char))
    (u : Option (List Char)) :
    (extractSection t sm em = sentinel ∨ extractSection t sm em <:+: t) ∧
      formatText u ≠ [] :=
  ⟨extractSection_sentinel_or_inside t sm em, formatText_ne_nil u⟩

/-- C4 counterexample: the newline separating two adjacent list items is
not consumed as a list-item boundary; it reappears as an explicit
line-break tag between the two items inside the produced list. -/
theorem newline_between_items_cex :
    formatText (some "- a\n- b".data) = "<ul><li>a</li><br><li>b</li></ul>".data ∧
      countOcc (formatText (some "- a\n- b".data)) "</li><br><li>".data = 1 :=
  ⟨by decide, by decide⟩

/-- C4 (amended): each line beginning with a dash or star bullet becomes a
list item holding the remainder of the line with the bullet stripped (the
two regex passes together equal one per-line conversion), and the final
pass replaces every newline character with the line-break tag — including
the newlines separating adjacent list items, which therefore reappear as
break tags inside the list — so the output never contains a newline. -/
theorem bullets_and_breaks :
    (∀ t : List Char, starPass (dashPass t) = mapLines convLine t) ∧
    (∀ t : List Char, t ≠ [] →
      formatText (some t) = replaceNl (wrapUl (mapLines convLine t)) ∧
      '\n' ∉ formatText (some t)) ∧
    formatText (some "- a\n- b".data) = "<ul><li>a</li><br><li>b</li></ul>".data := by
  refine ⟨passes_eq_mapLines_conv, fun t ht => ⟨formatText_pipeline ht, ?_⟩, by decide⟩
  rw [formatText_pipeline ht]
  exact replaceNl_no_nl _

/-- Witness for C4: the pipeline applied to a concrete two-line input. -/
theorem bullets_and_breaks_witness :
    formatText (some "x\ny".data) = "x<br>y".data ∧
      '\n' ∉ formatText (some "x\ny".data) := by
  have h := bullets_and_breaks.2.1 "x\ny".data (by decide)
  exact ⟨h.1.trans (by decide), h.2⟩

/-- C2 counterexample: with two bullet runs separated by a plain line the
formatter produces a single list container that swallows the plain line —
one list open tag in the whole output — not one container per run. -/
theorem list_runs_cex :
    formatText (some "- a\nplain\n- b".data) =
        "<ul><li>a</li><br>plain<br><li>b</li></ul>".data ∧
      countOcc (formatText (some "- a\nplain\n- b".data)) ulOpen = 1 ∧
      countOcc (formatText (some "- a\nplain\n- b".data)) ulClose = 1 :=
  ⟨by decide, by decide, by decide⟩

/-- C2 (amended): the dotall list-wrapping regex emits a single list
container spanning from the first list item to the last one.  On the
input whose bullet run is followed by a plain line the output is one list
with two items (separated by a break tag) followed by the plain line
outside the list; on the input whose two bullet runs are separated by a
plain line the single container swallows the plain line; in both cases
exactly one list container is produced. -/
theorem list_runs_amended :
    formatText (some "- a\n- b\nplain".data) =
        "<ul><li>a</li><br><li>b</li></ul><br>plain".data ∧
      formatText (some "- a\nplain\n- b".data) =
        "<ul><li>a</li><br>plain<br><li>b</li></ul>".data ∧
      countOcc (formatText (some "- a\n- b\nplain".data)) ulOpen = 1 ∧
      countOcc (formatText (some "- a\nplain\n- b".data)) ulOpen = 1 :=
  ⟨by decide, by decide, by decide, by decide⟩

/-- C7 counterexample: a text containing no markers renders as the
sentinel in all four sections, so its characters (here the letter z,
which is neither a marker-label character nor whitespace trimmed at a
section edge) do not reappear anywhere in the rendered output. -/
theorem render_no_loss_cex :
    renderSections "zq".data = [sentinel, sentinel, sentinel, sentinel] ∧
      'z' ∈ ("zq".data : List Char) ∧
      ∀ r ∈ renderSections "zq".data, 'z' ∉ r :=
  ⟨by decide, by decide, by decide⟩

/-- C7 (amended): when the text contains none of the four markers, every
section extracts to the sentinel and renders as the sentinel, so the
text's characters are not carried into the output.  Character
preservation instead holds at the formatting stage: a non-empty section
text with no bulleted lines and no chevron character is rendered as
flowed text in which every character except the newlines reappears,
newlines being rendered as the explicit line-break tag. -/
theorem render_fallback (t : List Char) :
    ((jsIndexOf t keyMarker 0 = none ∧ jsIndexOf t suspMarker 0 = none ∧
        jsIndexOf t riskMarker 0 = none ∧ jsIndexOf t recMarker 0 = none) →
      renderSections t = [sentinel, sentinel, sentinel, sentinel]) ∧
    (t ≠ [] → (∀ l ∈ linesOf t, ¬ ("- ".data <+: l) ∧ ¬ ("* ".data <+: l)) →
      '<' ∉ t →
      formatText (some t) = replaceNl t ∧
        ∀ c ∈ t, c ≠ '\n' → c ∈ formatText (some t)) := by
  constructor
  · rintro ⟨h1, h2, h3, h4⟩
    unfold renderSections
    rw [extractSection_eq_sentinel (jsIndexOf_zero_eq_none.mp h1) _,
      extractSection_eq_sentinel (jsIndexOf_zero_eq_none.mp h2) _,
      extractSection_eq_sentinel (jsIndexOf_zero_eq_none.mp h3) _,
      extractSection_eq_sentinel (jsIndexOf_zero_eq_none.mp h4) _,
      show formatText (some sentinel) = sentinel from by decide]
  · intro ht hb hlt
    refine ⟨formatText_flows ht hb hlt, fun c hc hcn => ?_⟩
    rw [formatText_flows ht hb hlt]
    exact mem_replaceNl_of_mem hcn hc

/-- Witness for C7: a marker-free text rendering as four sentinels, and a
bullet-free two-line text flowing through formatting with its newline
turned into a break tag. -/
theorem render_fallback_witness :
    renderSections "plain text".data = [sentinel, sentinel, sentinel, sentinel] ∧
      formatText (some "hello\nworld".data) = "hello<br>world".data := by
  constructor
  · exact (render_fallback "plain text".data).1 ⟨by decide, by decide, by decide, by decide⟩
  · exact ((render_fallback "hello\nworld".data).2 (by decide) (by decide)
      (by decide)).1.trans (by decide)

/-- C8 counterexample: on a successful analysis the JSON body carries the
AI text in a field named analysis — the key analysisText appears nowhere
in the response. -/
theorem analyze_response_shape_cex :
    ((postAnalyze (some ⟨"doc.pdf".data, "application/pdf".data, 5⟩) true
        (AiOutcome.success "blob".data) "ts".data).1.body.map Prod.fst =
      ["analysis".data, "fileName".data, "fileType".data, "timestamp".data,
        "success".data]) ∧
      ¬ "analysisText".data ∈ ((postAnalyze (some ⟨"doc.pdf".data,
        "application/pdf".data, 5⟩) true (AiOutcome.success "blob".data)
        "ts".data).1.body.map Prod.fst) :=
  ⟨by decide, by decide⟩

/-- C8 (amended): for a type-accepted, size-accepted upload with the API
key configured, a successful analysis yields status 200 with the body
fields analysis, fileName, fileType, timestamp and success true — the AI
text blob is carried in the field named analysis, not analysisText — and
a failed analysis yields status 500 with the body success false and the
prefixed error message. -/
theorem analyze_response_shape (f : IncomingFile) (ts text msg : List Char)
    (hok : allowedFile f = true) (hsize : f.size ≤ fileSizeLimit) :
    postAnalyze (some f) true (AiOutcome.success text) ts =
      (⟨200, [("analysis".data, JVal.s text),
        ("fileName".data, JVal.s f.originalname),
        ("fileType".data, JVal.s ((extname f.originalname).map toLowerChar)),
        ("timestamp".data, JVal.s ts), ("success".data, JVal.b true)]⟩, true) ∧
    postAnalyze (some f) true (AiOutcome.failure msg) ts =
      (⟨500, [("success".data, JVal.b false),
        ("error".data, JVal.s ("Analysis failed: ".data ++ msg))]⟩, true) := by
  have hm : multerStage (some f) = MulterOutcome.ok f := by
    simp only [multerStage]
    rw [if_neg (by simp [hok]), if_neg (by omega)]
  constructor
  · simp only [postAnalyze, hm]
    rfl
  · simp only [postAnalyze, hm]
    rfl

/-- Witness for C8: a concrete accepted upload analyzed successfully. -/
theorem analyze_response_shape_witness :
    postAnalyze (some ⟨"a.png".data, "image/png".data, 7⟩) true
        (AiOutcome.success "text".data) "now".data =
      (⟨200, [("analysis".data, JVal.s "text".data),
        ("fileName".data, JVal.s "a.png".data),
        ("fileType".data, JVal.s ".png".data),
        ("timestamp".data, JVal.s "now".data),
        ("success".data, JVal.b true)]⟩, true) := by
  have h := (analyze_response_shape ⟨"a.png".data, "image/png".data, 7⟩ "now".data
    "text".data "m".data (by decide) (by decide)).1
  exact h.trans (by decide)

/-- C9 counterexample: an uploaded file exceeding the 10 MiB limit whose
type is rejected (here a plain-text file) is stopped by the multer
fileFilter before the size limit is ever consulted; its plain Error is
not a MulterError, so the error middleware answers 500, not a 400-class
response.  The AI service is still not called. -/
theorem oversize_rejected_cex :
    (postAnalyze (some ⟨"big.txt".data, "text/plain".data, 10485761⟩) true
        (AiOutcome.success "ok".data) "ts".data).1.status = 500 ∧
      (postAnalyze (some ⟨"big.txt".data, "text/plain".data, 10485761⟩) true
        (AiOutcome.success "ok".data) "ts".data).1 =
        ⟨500, errBody "Only PDF and image files are allowed!".data⟩ ∧
      (postAnalyze (some ⟨"big.txt".data, "text/plain".data, 10485761⟩) true
        (AiOutcome.success "ok".data) "ts".data).2 = false :=
  ⟨by decide, by decide, by decide⟩

/-- C9 (amended): an uploaded file exceeding the 10 MiB limit never
reaches the AI service; when the file is of an accepted type the response
is the single 400 File too large error JSON produced by the multer error
middleware from the LIMIT_FILE_SIZE error, while a file that is also of a
rejected type is stopped by the fileFilter first and answered 500 with
the type error message — not a 400-class response. -/
theorem oversize_rejected (f : IncomingFile) (key : Bool) (ai : AiOutcome)
    (ts : List Char) (hsize : fileSizeLimit < f.size) :
    (postAnalyze (some f) key ai ts).2 = false ∧
      (allowedFile f = true →
        (postAnalyze (some f) key ai ts).1 =
          ⟨400, errBody "File too large. Maximum size is 10MB.".data⟩) ∧
      (allowedFile f = false →
        (postAnalyze (some f) key ai ts).1 =
          ⟨500, errBody "Only PDF and image files are allowed!".data⟩) := by
  by_cases hok : allowedFile f = true
  · have hm : multerStage (some f) = MulterOutcome.sizeError := by
      simp only [multerStage]
      rw [if_neg (by simp [hok]), if_pos hsize]
    refine ⟨by simp only [postAnalyze, hm], fun _ => by simp only [postAnalyze, hm], ?_⟩
    intro hc
    rw [hok] at hc
    exact absurd hc (by simp)
  · have hm : multerStage (some f) = MulterOutcome.typeError := by
      simp only [multerStage]
      rw [if_pos (by simpa using hok)]
    exact ⟨by simp only [postAnalyze, hm], fun hc => absurd hc hok,
      fun _ => by simp only [postAnalyze, hm]⟩

/-- Witness for C9: a 10 MiB plus one byte PDF upload is answered 400 with
the File too large message and the AI service is not called. -/
theorem oversize_rejected_witness :
    (postAnalyze (some ⟨"big.pdf".data, "application/pdf".data, 10485761⟩) true
        (AiOutcome.success "ok".data) "ts".data).2 = false ∧
      (postAnalyze (some ⟨"big.pdf".data, "application/pdf".data, 10485761⟩) true
        (AiOutcome.success "ok".data) "ts".data).1 =
        ⟨400, errBody "File too large. Maximum size is 10MB.".data⟩ := by
  have h := oversize_rejected ⟨"big.pdf".data, "application/pdf".data, 10485761⟩ true
    (AiOutcome.success "ok".data) "ts".data (by decide)
  exact ⟨h.1, h.2.1 (by decide)⟩

/-- C10: a request reaching the analyze route with no uploaded file is
answered 400 with the No file uploaded error JSON and the AI service is
never invoked; the missing-file check precedes the API key check, so the
same 400 is returned whether or not a key is configured. -/
theorem nofile_rejected (key : Bool) (ai : AiOutcome) (ts : List Char) :
    postAnalyze none key ai ts = (⟨400, errBody "No file uploaded".data⟩, false) := rfl

end LegalDoc
